import Mathlib

/-!
Verification of the amcharts4 sample sources: the `AxisRendererY` coordinate
math and `RadarColumn` tooltip lookup (embedded from
`src/dist/es2015/.internal/charts/elements/RadarColumn.js`), the
`FlowDiagramLink` / `Ellipse` property setters, and the property-store /
invalidation-queue / drain-pass core described by the design document
(the `Sprite` base class and the queue implementation are not part of the
sample, so they are modelled from the spec).

Numbers are embedded as exact rationals (`ℚ`).
-/

/-! ## Geometry: `AxisRendererY` (from `RadarColumn.js`, second module) -/

/-- Embeds `$math.round(value, 1)`.  Modelled from the spec: the helper
`$math.round` is not under `src/`; the spec requires rounding to one decimal
place, i.e. `Math.round(value * 10) / 10`. -/
def mathRound1 (value : ℚ) : ℚ :=
  ((round (value * 10) : ℤ) : ℚ) / 10

/-- Embeds `$math.fitToRange(value, min, max)`.  Modelled from the spec: the
helper is not under `src/`; it clamps `value` into `[minValue, maxValue]`. -/
def fitToRange (value minValue maxValue : ℚ) : ℚ :=
  if value < minValue then minValue
  else if maxValue < value then maxValue
  else value

/-- A 2-D point, as used by `positionToPoint` / `pointToPosition`. -/
structure Point where
  x : ℚ
  y : ℚ
deriving DecidableEq

/-- The slice of the `axis` object that `AxisRendererY` reads:
`axis.start`, `axis.end`, `axis.axisFullLength`. -/
structure ChartAxis where
  start : ℚ
  endPos : ℚ
  axisFullLength : ℚ
deriving DecidableEq

/-- The state of an `AxisRendererY` that the embedded methods read.
`inversed` is `axis.renderer.inversed` (this renderer is `axis.renderer`);
`axisLength` is the computed `axisLength` getter
(`axis.pixelHeight - paddings`) and `width` is the inherited `getWidth()`,
both embedded as fields since their inputs live outside the sample. -/
structure AxisRendererY where
  axis : ChartAxis
  inversed : Bool
  axisLength : ℚ
  width : ℚ
deriving DecidableEq

/-- Embeds `AxisRendererY.prototype.positionToCoordinate` (RadarColumn.js
lines 451-462): `(axis.end - position) * axisFullLength` when not inversed,
`(position - axis.start) * axisFullLength` when inversed, rounded via
`$math.round(coordinate, 1)`. -/
def positionToCoordinate (r : AxisRendererY) (position : ℚ) : ℚ :=
  let axisFullLength := r.axis.axisFullLength
  let coordinate :=
    if !r.inversed then (r.axis.endPos - position) * axisFullLength
    else (position - r.axis.start) * axisFullLength
  mathRound1 coordinate

/-- Embeds `AxisRenderer.coordinateToPosition`.  Modelled from the spec: the
base-class implementation is not under `src/`; the spec defines it as the
inverse of `positionToCoordinate`, parameterized by the same orientation flag
and axis full pixel length. -/
def coordinateToPosition (r : AxisRendererY) (coordinate : ℚ) : ℚ :=
  if !r.inversed then r.axis.endPos - coordinate / r.axis.axisFullLength
  else coordinate / r.axis.axisFullLength + r.axis.start

/-- Embeds `AxisRendererY.prototype.positionToPoint`:
`{ x: 0, y: this.positionToCoordinate(position) }`. -/
def positionToPoint (r : AxisRendererY) (position : ℚ) : Point :=
  { x := 0, y := positionToCoordinate r position }

/-- Embeds `AxisRendererY.prototype.pointToPosition`:
`this.coordinateToPosition(point.y)`. -/
def pointToPosition (r : AxisRendererY) (point : Point) : ℚ :=
  coordinateToPosition r point.y

/-- The rectangle handed to `$path.rectToPath`. -/
structure SvgRect where
  x : ℚ
  y : ℚ
  width : ℚ
  height : ℚ
deriving DecidableEq

/-- Abstract path description.  Modelled from the spec: `$path.rectToPath` is
not under `src/`; the spec says path output is an abstract description fully
determined by its inputs, so it is embedded as the pair of its arguments. -/
structure PathDesc where
  rect : SvgRect
  ccw : Bool
deriving DecidableEq

/-- Embeds `$path.rectToPath(rect, ccw)` as an abstract path description. -/
def rectToPath (rect : SvgRect) (ccw : Bool) : PathDesc :=
  { rect := rect, ccw := ccw }

/-- Embeds `AxisRendererY.prototype.getPositionRangePath` (RadarColumn.js
lines 263-276): clamps the two coordinates into `[0, axisLength]`, takes
`h = |y2 - y1|`, `y = min y1 y2`, `w = getWidth()`, `x = 0`, and builds
`rectToPath({x, y, width, height}, true)`. -/
def getPositionRangePath (r : AxisRendererY) (startPosition endPosition : ℚ) : PathDesc :=
  let y1 := fitToRange (positionToCoordinate r startPosition) 0 r.axisLength
  let y2 := fitToRange (positionToCoordinate r endPosition) 0 r.axisLength
  let h := |y2 - y1|
  let w := r.width
  let y := min y1 y2
  let x := 0
  rectToPath { x := x, y := y, width := w, height := h } true

/-! ## `RadarColumn` tooltip lookup (from `RadarColumn.js`, first module) -/

/-- The inner `Slice` child (`this.radarColumn`) with its own tooltip
coordinates; `none` plays the role of an unset (non-numeric) value. -/
structure Slice where
  tooltipX : Option ℚ
  tooltipY : Option ℚ
deriving DecidableEq

/-- A `RadarColumn`: its stored property bag (string-keyed, as read by
`getPropertyValue`) and the inner slice `radarColumn`. -/
structure RadarColumn where
  props : List (String × ℚ)
  radarColumn : Slice
deriving DecidableEq

/-- Embeds `$type.isNumber` on a possibly-unset value. -/
def isNumber : Option ℚ → Bool
  | some _ => true
  | none => false

/-- Embeds `this.getPropertyValue(name)` on a `RadarColumn`. -/
def RadarColumn.getPropertyValue (rc : RadarColumn) (name : String) : Option ℚ :=
  rc.props.lookup name

/-- Embeds `RadarColumn.prototype.getTooltipX` (lines 67-73):
reads the stored property `"tooltipX"`, falling back to
`this.radarColumn.tooltipX` when it is not a number. -/
def RadarColumn.getTooltipX (rc : RadarColumn) : Option ℚ :=
  let value := rc.getPropertyValue "tooltipX"
  if isNumber value then value else rc.radarColumn.tooltipX

/-- Embeds `RadarColumn.prototype.getTooltipY` (lines 79-85): the source
reads the stored property `"tooltipX"` (not `"tooltipY"`), falling back to
`this.radarColumn.tooltipY` when it is not a number. -/
def RadarColumn.getTooltipY (rc : RadarColumn) : Option ℚ :=
  let value := rc.getPropertyValue "tooltipX"
  if isNumber value then value else rc.radarColumn.tooltipY

/-! ## The property / invalidation / drain core

Modelled from the spec: the `Sprite` base class, the `PropertyStore`, the
process-wide invalidation queue and `drainPass` are not under `src/` (the
sample only contains their callers: the `Ellipse.radius` setter calls
`invalidate()`, the `FlowDiagramLink.startAngle` setter calls
`setPropertyValue("startAngle", value, true)`).  The definitions below follow
sections 3, 4.1, 4.3, 4.4 and 5 of the design document. -/

/-- Invalidation kinds: self-redraw, reposition, layout (spec section 3). -/
inductive Kind
  | redraw
  | reposition
  | layout
deriving DecidableEq

/-- Reentrant work triggered while an object is being processed: a further
invalidation request, or disposing an object (spec section 5). -/
inductive Effect
  | invalidate (kind : Kind) (obj : Nat)
  | dispose (obj : Nat)
deriving DecidableEq

/-- Observable calls a drain pass makes on objects, in order: layout
validation (measurement), a successful `draw()`, a `draw()` that threw, and
repositioning. -/
inductive Event
  | laidOut (obj : Nat)
  | drew (obj : Nat)
  | failedDraw (obj : Nat)
  | moved (obj : Nat)
deriving DecidableEq

/-- The object an event concerns. -/
def Event.obj : Event → Nat
  | laidOut o => o
  | drew o => o
  | failedDraw o => o
  | moved o => o

/-- Property values: a typed union with deep (structural) equality
(spec section 3). -/
inductive PropValue
  | num (n : ℤ)
  | str (s : String)
  | boolean (b : Bool)
deriving DecidableEq

/-- Payload of a "propertychanged" event: the previous value is retained for
the event payload (spec section 4.1). -/
structure PropEvent where
  obj : Nat
  property : String
  oldValue : PropValue
  newValue : PropValue
deriving DecidableEq

/-- Static structure of the object tree and the per-object behaviours a pass
invokes.  Objects are identified by creation index, so a parent always has a
smaller index than its children (`parent_lt`); `affectsSize` says whether a
change to the object affects measured size (spec section 4.3);
`onDraw` lists the reentrant effects the object's `draw()` triggers;
`drawFails` says whether its `draw()` throws; `defaults` are the class-level
property defaults (spec section 3). -/
structure Env where
  parent : Nat → Option Nat
  parent_lt : ∀ o p, parent o = some p → p < o
  affectsSize : Nat → Bool
  onDraw : Nat → List Effect
  drawFails : Nat → Bool
  defaults : String → PropValue

/-- Mutable system state: per-object lifecycle flags and property bags, and
the three pending sets of the process-wide invalidation queue, each an
ordered, deduplicated list (spec sections 3 and 4.3). -/
structure SysState where
  disposed : Nat → Bool
  errored : Nat → Bool
  valid : Nat → Bool
  props : Nat → List (String × PropValue)
  pendingRedraw : List Nat
  pendingReposition : List Nat
  pendingLayout : List Nat

/-- Ancestor chain of an object, following `parent` links; the fuel `o`
suffices because parent indices strictly decrease. -/
def ancestorsAux (parent : Nat → Option Nat) : Nat → Nat → List Nat
  | 0, _ => []
  | fuel + 1, o =>
    match parent o with
    | none => []
    | some p => p :: ancestorsAux parent fuel p

/-- All ancestor containers of `o`. -/
def ancestors (env : Env) (o : Nat) : List Nat :=
  ancestorsAux env.parent o o

/-- Add `obj` to `pendingLayout` unless it is disposed, in an error state, or
already pending (idempotent, spec sections 3 and 4.3); enqueuing marks the
object invalid (spec section 4.4). -/
def invalidateLayout (s : SysState) (obj : Nat) : SysState :=
  if s.disposed obj then s
  else if s.errored obj then s
  else if obj ∈ s.pendingLayout then s
  else
    { s with
      pendingLayout := s.pendingLayout ++ [obj]
      valid := fun o => if o = obj then false else s.valid o }

/-- `invalidatePosition(obj)`: the cheaper path, adds to `pendingReposition`
only (spec section 4.3), with the same guards. -/
def invalidatePosition (s : SysState) (obj : Nat) : SysState :=
  if s.disposed obj then s
  else if s.errored obj then s
  else if obj ∈ s.pendingReposition then s
  else
    { s with
      pendingReposition := s.pendingReposition ++ [obj]
      valid := fun o => if o = obj then false else s.valid o }

/-- `invalidate(obj)`: no-op on a disposed object (spec sections 4.4 and 7)
or an object in an error state (spec section 4.3 failure semantics) or one
already pending; otherwise appends to `pendingRedraw` and, when the change
affects measured size, marks every ancestor container's pending layout
(spec section 4.3). -/
def invalidate (env : Env) (s : SysState) (obj : Nat) : SysState :=
  if s.disposed obj then s
  else if s.errored obj then s
  else if obj ∈ s.pendingRedraw then s
  else
    let s1 :=
      { s with
        pendingRedraw := s.pendingRedraw ++ [obj]
        valid := fun o => if o = obj then false else s.valid o }
    if env.affectsSize obj then (ancestors env obj).foldl invalidateLayout s1
    else s1

/-- Disposing an object: terminal flag set, and the object is removed from
every pending set at once (spec sections 4.4 and 5). -/
def dispose (s : SysState) (obj : Nat) : SysState :=
  { s with
    disposed := fun o => if o = obj then true else s.disposed o
    pendingRedraw := s.pendingRedraw.filter (fun o => o != obj)
    pendingReposition := s.pendingReposition.filter (fun o => o != obj)
    pendingLayout := s.pendingLayout.filter (fun o => o != obj) }

/-- Apply one reentrant effect raised during a pass. -/
def applyEffect (env : Env) (s : SysState) : Effect → SysState
  | Effect.invalidate Kind.redraw o => invalidate env s o
  | Effect.invalidate Kind.reposition o => invalidatePosition s o
  | Effect.invalidate Kind.layout o => invalidateLayout s o
  | Effect.dispose o => dispose s o

/-- Result of (part of) a drain pass: the state, the ordered trace of calls
made on objects, and the objects whose `draw()` threw (errors are reported,
not propagated — spec section 4.3). -/
structure PassResult where
  state : SysState
  log : List Event
  reports : List Nat

/-- Process one dequeued object of the redraw set: skip it if it is (by now)
disposed; if its `draw()` throws, catch, mark the error state and report,
leaving it flagged; otherwise mark it valid, emit the draw call and apply the
reentrant effects its `draw()` raised (spec section 4.3). -/
def drawStep (env : Env) (acc : PassResult) (obj : Nat) : PassResult :=
  if acc.state.disposed obj then acc
  else if env.drawFails obj then
    { state :=
        { acc.state with errored := fun o => if o = obj then true else acc.state.errored o }
      log := acc.log ++ [Event.failedDraw obj]
      reports := acc.reports ++ [obj] }
  else
    { state :=
        (env.onDraw obj).foldl (applyEffect env)
          { acc.state with valid := fun o => if o = obj then true else acc.state.valid o }
      log := acc.log ++ [Event.drew obj]
      reports := acc.reports }

/-- The redraw phase of a pass over a queue snapshot. -/
def drawPhase (env : Env) (s : SysState) (queue : List Nat) : PassResult :=
  queue.foldl (drawStep env) { state := s, log := [], reports := [] }

/-- Insert into a list sorted by descending object index. -/
def insertDesc (x : Nat) : List Nat → List Nat
  | [] => [x]
  | y :: ys => if y ≤ x then x :: y :: ys else y :: insertDesc x ys

/-- Sort by descending object index: since parents have smaller indices than
their children, this is a children-before-parents (post-)order. -/
def sortDesc (l : List Nat) : List Nat := l.foldr insertDesc []

/-- Sort by ascending object index: a parents-before-children (pre-)order. -/
def sortAsc (l : List Nat) : List Nat := (sortDesc l).reverse

/-- Pending sets are snapshotted and cleared when a pass starts, so work
enqueued during the pass is only seen by the next one (spec section 4.3). -/
def clearPending (s : SysState) : SysState :=
  { s with pendingRedraw := [], pendingReposition := [], pendingLayout := [] }

/-- The layout phase of a pass: the snapshot of `pendingLayout`, ordered
children-before-parents, skipping disposed objects, each remaining object
being measured (`validate()`); measurement changes no queue state. -/
def layoutPhaseLog (s : SysState) : List Event :=
  ((sortDesc s.pendingLayout).filter (fun o => !s.disposed o)).map Event.laidOut

/-- The reposition phase of a pass: the snapshot of `pendingReposition`,
ordered parents-before-children, skipping objects found disposed at that
point of the pass. -/
def repositionPhaseLog (dis : Nat → Bool) (queue : List Nat) : List Event :=
  ((sortAsc queue).filter (fun o => !dis o)).map Event.moved

/-- `drainPass()` (spec section 4.3): snapshot and clear the three pending
sets, then process `pendingLayout` children-before-parents, then
`pendingRedraw` in queue order calling `draw()`, then `pendingReposition`
parents-before-children; every dequeued object found disposed is skipped.
Invalidations raised while processing accumulate in the freshly cleared sets,
so they are only seen by the next pass. -/
def drainPass (env : Env) (s : SysState) : PassResult :=
  let afterDraw := drawPhase env (clearPending s) s.pendingRedraw
  { state := afterDraw.state
    log := layoutPhaseLog s ++ afterDraw.log
            ++ repositionPhaseLog afterDraw.state.disposed s.pendingReposition
    reports := afterDraw.reports }

/-- Replace the stored binding for `P` in a property bag. -/
def storeProp (l : List (String × PropValue)) (P : String) (V : PropValue) :
    List (String × PropValue) :=
  (P, V) :: l.filter (fun pv => pv.1 != P)

/-- `set(name, value)` on a `Drawable` (spec sections 4.1 and 4.4): a silent
no-op on a disposed object; `changed = false` and no side effect when the
value deep-equals the stored value (or, when unset, equals the class
default); on a real change it stores the value, fires one "propertychanged"
event carrying the old value, and (when `invalidateFlag` is set, as in the
`startAngle` setter) calls `invalidate`. -/
def setPropertyValue (env : Env) (s : SysState) (obj : Nat) (P : String) (V : PropValue)
    (invalidateFlag : Bool) : SysState × Bool × List PropEvent :=
  if s.disposed obj then (s, false, [])
  else
    match (s.props obj).lookup P with
    | some cur =>
      if V = cur then (s, false, [])
      else
        let s1 :=
          { s with props := fun o => if o = obj then storeProp (s.props o) P V else s.props o }
        let s2 := if invalidateFlag then invalidate env s1 obj else s1
        (s2, true, [{ obj := obj, property := P, oldValue := cur, newValue := V }])
    | none =>
      if V = env.defaults P then (s, false, [])
      else
        let s1 :=
          { s with props := fun o => if o = obj then storeProp (s.props o) P V else s.props o }
        let s2 := if invalidateFlag then invalidate env s1 obj else s1
        (s2, true, [{ obj := obj, property := P, oldValue := env.defaults P, newValue := V }])

/-- Embeds the `FlowDiagramLink.startAngle` setter (part_002 lines 124-142):
`this.setPropertyValue("startAngle", value, true)`. -/
def setStartAngle (env : Env) (s : SysState) (obj : Nat) (value : ℤ) :
    SysState × Bool × List PropEvent :=
  setPropertyValue env s obj "startAngle" (PropValue.num value) true

/-- Embeds the `Ellipse.radius` setter (part_000 lines 77-95): store
`width = value * 2`, then call `this.invalidate()`. -/
def setRadius (env : Env) (s : SysState) (obj : Nat) (value : ℤ) : SysState :=
  let r := setPropertyValue env s obj "width" (PropValue.num (value * 2)) false
  invalidate env r.1 obj

/-- The effective value a property read returns: the stored value, or the
class-level default when unset (spec sections 3 and 4.1). -/
def effectiveValue (env : Env) (s : SysState) (obj : Nat) (P : String) : PropValue :=
  match (s.props obj).lookup P with
  | some v => v
  | none => env.defaults P

/-- A small concrete environment used by the witnesses: objects `1` and `2`
are children of container `0`; object `1`'s `draw()` throws; no reentrant
effects; the class default of every property is the number `0`. -/
def wEnv : Env where
  parent := fun o => if o = 1 then some 0 else if o = 2 then some 0 else none
  parent_lt := by
    intro o p h
    simp only [] at h
    split_ifs at h with h1 h2
    · injection h with h'
      omega
    · injection h with h'
      omega
  affectsSize := fun _ => false
  onDraw := fun _ => []
  drawFails := fun o => o == 1
  defaults := fun _ => PropValue.num 0

/-- Concrete state used by witnesses: all three queues hold objects
`2, 1, 0` in scrambled orders; nothing is disposed or errored. -/
def wState : SysState where
  disposed := fun _ => false
  errored := fun _ => false
  valid := fun _ => false
  props := fun _ => []
  pendingRedraw := [2, 0, 1]
  pendingReposition := [2, 0, 1]
  pendingLayout := [0, 2, 1]

/-- Concrete state for disposed-object witnesses: object `2` is disposed yet
still listed in the queues, so a drain pass must skip it. -/
def wStateDisposed : SysState where
  disposed := fun o => o == 2
  errored := fun _ => false
  valid := fun _ => false
  props := fun _ => []
  pendingRedraw := [0, 2]
  pendingReposition := [2, 1]
  pendingLayout := [2, 0]

/-- A pristine concrete state: empty queues, no stored properties, all
objects valid and alive. -/
def wStateFresh : SysState where
  disposed := fun _ => false
  errored := fun _ => false
  valid := fun _ => true
  props := fun _ => []
  pendingRedraw := []
  pendingReposition := []
  pendingLayout := []


/-! ## Helper lemmas -/

/-- Rounding to one decimal place moves a value by at most `1/20`. -/
theorem mathRound1_close (x : ℚ) : |mathRound1 x - x| ≤ 1 / 20 := by
  have h := abs_sub_round (x * 10)
  rw [abs_sub_comm] at h
  have hx : mathRound1 x - x = (((round (x * 10) : ℤ) : ℚ) - x * 10) / 10 := by
    unfold mathRound1; ring
  rw [hx, abs_div]
  have h10 : |(10 : ℚ)| = 10 := by norm_num
  rw [h10]
  linarith

/-- `fitToRange` really lands in the requested interval. -/
theorem fitToRange_bounds (v lo hi : ℚ) (h : lo ≤ hi) :
    lo ≤ fitToRange v lo hi ∧ fitToRange v lo hi ≤ hi := by
  unfold fitToRange
  split_ifs with h1 h2 <;> constructor <;> linarith

/-- The lower end of a segment plus its length is its upper end. -/
theorem min_add_abs_sub (a b : ℚ) : min a b + |b - a| = max a b := by
  rcases le_total a b with h | h
  · rw [min_eq_left h, max_eq_right h, abs_of_nonneg (by linarith)]; ring
  · rw [min_eq_right h, max_eq_left h, abs_of_nonpos (by linarith)]; ring

/-! ## Claim theorems: geometry and tooltip lookup -/

/-- Claim C9: `RadarColumn.getTooltipY` reads the stored property named
`"tooltipX"` (not `"tooltipY"`): whenever that property holds a number,
`getTooltipY` returns it; only when it is not a number does it fall back to
the inner slice's `radarColumn.tooltipY`. -/
theorem getTooltipY_reads_tooltipX (rc : RadarColumn) :
    (∀ q : ℚ, rc.getPropertyValue "tooltipX" = some q → rc.getTooltipY = some q) ∧
    (rc.getPropertyValue "tooltipX" = none → rc.getTooltipY = rc.radarColumn.tooltipY) := by
  constructor
  · intro q hq
    simp [RadarColumn.getTooltipY, hq, isNumber]
  · intro hq
    simp [RadarColumn.getTooltipY, hq, isNumber]

/-- Witness for C9 at two concrete columns: with `tooltipX` stored as `7`,
`getTooltipY` returns `7`; with nothing stored, it returns the slice's
`tooltipY` (here `2`). -/
theorem getTooltipY_reads_tooltipX_witness :
    RadarColumn.getTooltipY ⟨[("tooltipX", 7)], ⟨some 1, some 2⟩⟩ = some 7 ∧
    RadarColumn.getTooltipY ⟨[], ⟨some 1, some 2⟩⟩ = some 2 := by
  constructor
  · exact (getTooltipY_reads_tooltipX _).1 7 rfl
  · exact (getTooltipY_reads_tooltipX _).2 rfl

/-- Claim C5: `positionToCoordinate` returns a pixel coordinate rounded to
one decimal place (an integer multiple of `1/10`, within `1/20` of the exact
value), which is `(axis.end - position) * axisFullLength` when the renderer
is not inversed and `(position - axis.start) * axisFullLength` when it is. -/
theorem positionToCoordinate_rounded (r : AxisRendererY) (p : ℚ) :
    (r.inversed = false →
      ∃ z : ℤ, positionToCoordinate r p = (z : ℚ) / 10 ∧
        |(z : ℚ) / 10 - (r.axis.endPos - p) * r.axis.axisFullLength| ≤ 1 / 20) ∧
    (r.inversed = true →
      ∃ z : ℤ, positionToCoordinate r p = (z : ℚ) / 10 ∧
        |(z : ℚ) / 10 - (p - r.axis.start) * r.axis.axisFullLength| ≤ 1 / 20) := by
  constructor
  · intro h
    refine ⟨round ((r.axis.endPos - p) * r.axis.axisFullLength * 10), ?_, ?_⟩
    · simp [positionToCoordinate, h, mathRound1]
    · exact mathRound1_close ((r.axis.endPos - p) * r.axis.axisFullLength)
  · intro h
    refine ⟨round ((p - r.axis.start) * r.axis.axisFullLength * 10), ?_, ?_⟩
    · simp [positionToCoordinate, h, mathRound1]
    · exact mathRound1_close ((p - r.axis.start) * r.axis.axisFullLength)

/-- Witness for C5 at a non-inversed and an inversed renderer with
`axis = {start 0, end 1, fullLength 100}` and position `1/3`. -/
theorem positionToCoordinate_rounded_witness :
    (∃ z : ℤ,
      positionToCoordinate { axis := ⟨0, 1, 100⟩, inversed := false, axisLength := 100, width := 10 } (1 / 3)
          = (z : ℚ) / 10 ∧
        |(z : ℚ) / 10 - ((1 : ℚ) - 1 / 3) * 100| ≤ 1 / 20) ∧
    (∃ z : ℤ,
      positionToCoordinate { axis := ⟨0, 1, 100⟩, inversed := true, axisLength := 100, width := 10 } (1 / 3)
          = (z : ℚ) / 10 ∧
        |(z : ℚ) / 10 - ((1 / 3 : ℚ) - 0) * 100| ≤ 1 / 20) := by
  constructor
  · exact (positionToCoordinate_rounded _ _).1 rfl
  · exact (positionToCoordinate_rounded _ _).2 rfl

/-- Claim C10: `getPositionRangePath` is symmetric in its two positions, the
rectangle it describes has non-negative height, and (for a non-negative axis
length) its vertical extent is clamped into `[0, axisLength]`. -/
theorem getPositionRangePath_symm_clamped (r : AxisRendererY) (a b : ℚ) :
    getPositionRangePath r a b = getPositionRangePath r b a ∧
    0 ≤ (getPositionRangePath r a b).rect.height ∧
    (0 ≤ r.axisLength →
      0 ≤ (getPositionRangePath r a b).rect.y ∧
      (getPositionRangePath r a b).rect.y + (getPositionRangePath r a b).rect.height
        ≤ r.axisLength) := by
  refine ⟨?_, ?_, ?_⟩
  · unfold getPositionRangePath rectToPath
    simp only [PathDesc.mk.injEq, SvgRect.mk.injEq]
    refine ⟨⟨?_, ?_, ?_, ?_⟩, ?_⟩ <;>
      first
        | trivial
        | exact min_comm _ _
        | exact abs_sub_comm _ _
  · unfold getPositionRangePath rectToPath
    exact abs_nonneg _
  · intro hlen
    have h1 := fitToRange_bounds (positionToCoordinate r a) 0 r.axisLength hlen
    have h2 := fitToRange_bounds (positionToCoordinate r b) 0 r.axisLength hlen
    unfold getPositionRangePath rectToPath
    constructor
    · exact le_min h1.1 h2.1
    · rw [min_add_abs_sub]
      exact max_le h1.2 h2.2

/-- Witness for C10 at a concrete renderer (`axisLength = 80 ≥ 0`) and the
positions `1/4` and `3/4`. -/
theorem getPositionRangePath_symm_clamped_witness :
    getPositionRangePath { axis := ⟨0, 1, 100⟩, inversed := false, axisLength := 80, width := 10 } (1 / 4) (3 / 4)
      = getPositionRangePath { axis := ⟨0, 1, 100⟩, inversed := false, axisLength := 80, width := 10 } (3 / 4) (1 / 4) ∧
    0 ≤ (getPositionRangePath { axis := ⟨0, 1, 100⟩, inversed := false, axisLength := 80, width := 10 } (1 / 4) (3 / 4)).rect.height ∧
    (0 ≤ (getPositionRangePath { axis := ⟨0, 1, 100⟩, inversed := false, axisLength := 80, width := 10 } (1 / 4) (3 / 4)).rect.y ∧
      (getPositionRangePath { axis := ⟨0, 1, 100⟩, inversed := false, axisLength := 80, width := 10 } (1 / 4) (3 / 4)).rect.y
        + (getPositionRangePath { axis := ⟨0, 1, 100⟩, inversed := false, axisLength := 80, width := 10 } (1 / 4) (3 / 4)).rect.height
        ≤ (80 : ℚ)) := by
  have h := getPositionRangePath_symm_clamped
    { axis := ⟨0, 1, 100⟩, inversed := false, axisLength := 80, width := 10 } (1 / 4) (3 / 4)
  exact ⟨h.1, h.2.1, h.2.2 (by norm_num)⟩

/-- Claim C4: for `p` in `[0, 1]` (and a positive axis length), the
round-trip `coordinateToPosition (positionToCoordinate p)` differs from `p`
by at most the tolerance induced by rounding coordinates to one decimal
place (`1 / (20 * axisFullLength)`), and for this vertical renderer the
composition equals `pointToPosition (positionToPoint p)`. -/
theorem coordinateToPosition_roundtrip (r : AxisRendererY) (p : ℚ)
    (hL : 0 < r.axis.axisFullLength) (_hp0 : 0 ≤ p) (_hp1 : p ≤ 1) :
    |coordinateToPosition r (positionToCoordinate r p) - p|
      ≤ 1 / (20 * r.axis.axisFullLength) ∧
    coordinateToPosition r (positionToCoordinate r p)
      = pointToPosition r (positionToPoint r p) := by
  have hL' : r.axis.axisFullLength ≠ 0 := ne_of_gt hL
  constructor
  · have hsplit : (1 : ℚ) / (20 * r.axis.axisFullLength)
        = (1 / 20) / r.axis.axisFullLength := by ring
    cases hinv : r.inversed
    · have hm := mathRound1_close ((r.axis.endPos - p) * r.axis.axisFullLength)
      have key : coordinateToPosition r (positionToCoordinate r p) - p
          = -((mathRound1 ((r.axis.endPos - p) * r.axis.axisFullLength)
                - (r.axis.endPos - p) * r.axis.axisFullLength) / r.axis.axisFullLength) := by
        simp only [coordinateToPosition, positionToCoordinate, hinv]
        field_simp
        ring
      rw [key, abs_neg, abs_div, abs_of_pos hL, hsplit]
      exact (div_le_div_iff_of_pos_right hL).mpr hm
    · have hm := mathRound1_close ((p - r.axis.start) * r.axis.axisFullLength)
      have key : coordinateToPosition r (positionToCoordinate r p) - p
          = (mathRound1 ((p - r.axis.start) * r.axis.axisFullLength)
                - (p - r.axis.start) * r.axis.axisFullLength) / r.axis.axisFullLength := by
        simp only [coordinateToPosition, positionToCoordinate, hinv]
        field_simp
        ring
      rw [key, abs_div, abs_of_pos hL, hsplit]
      exact (div_le_div_iff_of_pos_right hL).mpr hm
  · rfl

/-- Witness for C4 at `axis = {start 0, end 1, fullLength 100}`, `p = 1/3`. -/
theorem coordinateToPosition_roundtrip_witness :
    (0 : ℚ) < 100 ∧ (0 : ℚ) ≤ 1 / 3 ∧ (1 / 3 : ℚ) ≤ 1 ∧
    (|coordinateToPosition { axis := ⟨0, 1, 100⟩, inversed := false, axisLength := 100, width := 10 }
        (positionToCoordinate { axis := ⟨0, 1, 100⟩, inversed := false, axisLength := 100, width := 10 } (1 / 3)) - 1 / 3|
      ≤ 1 / (20 * (100 : ℚ)) ∧
    coordinateToPosition { axis := ⟨0, 1, 100⟩, inversed := false, axisLength := 100, width := 10 }
        (positionToCoordinate { axis := ⟨0, 1, 100⟩, inversed := false, axisLength := 100, width := 10 } (1 / 3))
      = pointToPosition { axis := ⟨0, 1, 100⟩, inversed := false, axisLength := 100, width := 10 }
          (positionToPoint { axis := ⟨0, 1, 100⟩, inversed := false, axisLength := 100, width := 10 } (1 / 3))) := by
  refine ⟨by norm_num, by norm_num, by norm_num, ?_⟩
  exact coordinateToPosition_roundtrip _ _ (by norm_num) (by norm_num) (by norm_num)

/-! ## Helper lemmas about the invalidation core -/

/-- Marking pending layout never touches the redraw queue. -/
theorem invalidateLayout_pendingRedraw (s : SysState) (o : Nat) :
    (invalidateLayout s o).pendingRedraw = s.pendingRedraw := by
  unfold invalidateLayout
  split_ifs <;> rfl

/-- Marking the pending layout of a whole ancestor chain never touches the
redraw queue. -/
theorem foldl_invalidateLayout_pendingRedraw (l : List Nat) (s : SysState) :
    (l.foldl invalidateLayout s).pendingRedraw = s.pendingRedraw := by
  induction l generalizing s with
  | nil => rfl
  | cons a t ih => rw [List.foldl_cons, ih, invalidateLayout_pendingRedraw]

/-- `invalidate` preserves deduplication of the redraw queue. -/
theorem invalidate_nodup (env : Env) (s : SysState) (o : Nat)
    (h : s.pendingRedraw.Nodup) : ((invalidate env s o).pendingRedraw).Nodup := by
  unfold invalidate
  split_ifs with h1 h2 h3 h4
  · exact h
  · exact h
  · exact h
  · rw [foldl_invalidateLayout_pendingRedraw]
    simp only [List.nodup_append, List.nodup_cons, List.not_mem_nil, not_false_iff,
      List.nodup_nil, and_true, true_and]
    exact ⟨h, by simpa using h3⟩
  · simp only [List.nodup_append, List.nodup_cons, List.not_mem_nil, not_false_iff,
      List.nodup_nil, and_true, true_and]
    exact ⟨h, by simpa using h3⟩

/-- Any sequence of `invalidate` calls preserves deduplication of the redraw
queue. -/
theorem foldl_invalidate_nodup (env : Env) (calls : List Nat) (s : SysState)
    (h : s.pendingRedraw.Nodup) :
    ((calls.foldl (invalidate env) s).pendingRedraw).Nodup := by
  induction calls generalizing s with
  | nil => exact h
  | cons a t ih => exact ih _ (invalidate_nodup env s a h)

/-! ## Claim theorems: queue idempotence and disposed objects -/

/-- Claim C1: re-invalidating an object already pending for a kind changes
nothing (for each of the three kinds), and any sequence of `invalidate`
calls starting from a deduplicated queue leaves any object in
`pendingRedraw` at most once before `drainPass` runs. -/
theorem invalidate_idempotent (env : Env) (s : SysState) (obj : Nat) :
    (obj ∈ s.pendingRedraw → invalidate env s obj = s) ∧
    (obj ∈ s.pendingReposition → invalidatePosition s obj = s) ∧
    (obj ∈ s.pendingLayout → invalidateLayout s obj = s) ∧
    (s.pendingRedraw.Nodup →
      ∀ calls : List Nat, ((calls.foldl (invalidate env) s).pendingRedraw).count obj ≤ 1) := by
  refine ⟨?_, ?_, ?_, ?_⟩
  · intro h
    unfold invalidate
    split_ifs <;> rfl
  · intro h
    unfold invalidatePosition
    split_ifs <;> rfl
  · intro h
    unfold invalidateLayout
    split_ifs <;> rfl
  · intro h calls
    exact List.nodup_iff_count_le_one.mp (foldl_invalidate_nodup env calls s h) obj


/-- Witness for C1: object `2` is already pending everywhere in `wState`, so
each re-invalidation returns the state unchanged, and three repeated
`invalidate` calls leave it in `pendingRedraw` at most once. -/
theorem invalidate_idempotent_witness :
    invalidate wEnv wState 2 = wState ∧
    invalidatePosition wState 2 = wState ∧
    invalidateLayout wState 2 = wState ∧
    (([2, 2, 2].foldl (invalidate wEnv) wState).pendingRedraw).count 2 ≤ 1 := by
  have h := invalidate_idempotent wEnv wState 2
  exact ⟨h.1 (by decide), h.2.1 (by decide), h.2.2.1 (by decide), h.2.2.2 (by decide) [2, 2, 2]⟩

/-- Claim C7: on a disposed Drawable every further property set and every
invalidation (of any kind) is a silent idempotent no-op — the state is
returned unchanged and no "propertychanged" event fires; all operations are
total functions, so no `DisposedUseError` ever reaches the caller. -/
theorem disposed_mutation_noop (env : Env) (s : SysState) (obj : Nat)
    (P : String) (V : PropValue) (inv : Bool) (h : s.disposed obj = true) :
    invalidate env s obj = s ∧
    invalidatePosition s obj = s ∧
    invalidateLayout s obj = s ∧
    setPropertyValue env s obj P V inv = (s, false, []) := by
  refine ⟨?_, ?_, ?_, ?_⟩ <;>
    simp [invalidate, invalidatePosition, invalidateLayout, setPropertyValue, h]

/-- Witness for C7: mutating the disposed object `2` of `wStateDisposed`
leaves the state untouched and fires nothing. -/
theorem disposed_mutation_noop_witness :
    invalidate wEnv wStateDisposed 2 = wStateDisposed ∧
    invalidatePosition wStateDisposed 2 = wStateDisposed ∧
    invalidateLayout wStateDisposed 2 = wStateDisposed ∧
    setPropertyValue wEnv wStateDisposed 2 "startAngle" (PropValue.num 5) true
      = (wStateDisposed, false, []) :=
  disposed_mutation_noop wEnv wStateDisposed 2 "startAngle" (PropValue.num 5) true (by decide)

/-! ## Helper lemmas about the pass orderings -/

/-- Membership in an `insertDesc` insertion. -/
theorem mem_insertDesc {x a : Nat} {l : List Nat} :
    a ∈ insertDesc x l ↔ a = x ∨ a ∈ l := by
  induction l with
  | nil => simp [insertDesc]
  | cons y ys ih =>
    unfold insertDesc
    split_ifs with h
    · simp [List.mem_cons]
    · simp only [List.mem_cons, ih]
      tauto

/-- `sortDesc` preserves membership. -/
theorem mem_sortDesc {a : Nat} {l : List Nat} : a ∈ sortDesc l ↔ a ∈ l := by
  induction l with
  | nil => simp [sortDesc]
  | cons y ys ih =>
    show a ∈ insertDesc y (sortDesc ys) ↔ _
    rw [mem_insertDesc, ih, List.mem_cons]

/-- `insertDesc` preserves the descending order. -/
theorem pairwise_insertDesc (x : Nat) (l : List Nat)
    (h : l.Pairwise (fun a b => b ≤ a)) :
    (insertDesc x l).Pairwise (fun a b => b ≤ a) := by
  induction l with
  | nil => simp [insertDesc]
  | cons y ys ih =>
    rw [List.pairwise_cons] at h
    obtain ⟨hy, hys⟩ := h
    unfold insertDesc
    split_ifs with hle
    · rw [List.pairwise_cons]
      refine ⟨?_, ?_⟩
      · intro b hb
        rcases List.mem_cons.mp hb with rfl | hb
        · exact hle
        · exact le_trans (hy b hb) hle
      · rw [List.pairwise_cons]
        exact ⟨hy, hys⟩
    · rw [List.pairwise_cons]
      refine ⟨?_, ih hys⟩
      intro b hb
      rcases mem_insertDesc.mp hb with rfl | hb
      · omega
      · exact hy b hb

/-- `sortDesc` yields a descending (children-before-parents) order. -/
theorem pairwise_sortDesc (l : List Nat) :
    (sortDesc l).Pairwise (fun a b => b ≤ a) := by
  induction l with
  | nil => simp [sortDesc]
  | cons y ys ih => exact pairwise_insertDesc y (sortDesc ys) ih

/-- `sortAsc` preserves membership. -/
theorem mem_sortAsc {a : Nat} {l : List Nat} : a ∈ sortAsc l ↔ a ∈ l := by
  unfold sortAsc
  rw [List.mem_reverse, mem_sortDesc]

/-- `sortAsc` yields an ascending (parents-before-children) order. -/
theorem pairwise_sortAsc (l : List Nat) :
    (sortAsc l).Pairwise (fun a b => a ≤ b) := by
  unfold sortAsc
  rw [List.pairwise_reverse]
  exact pairwise_sortDesc l

/-- In a list ordered by `r`, an element that `r` does not allow after
another one appears before it, as a two-element sublist. -/
theorem pair_sublist_of_pairwise {α : Type} {r : α → α → Prop} {x c : α} (hne : x ≠ c) :
    ∀ {l : List α}, l.Pairwise r → x ∈ l → c ∈ l → ¬ r c x → List.Sublist [x, c] l := by
  intro l
  induction l with
  | nil => intro _ hx _ _; cases hx
  | cons a t ih =>
    intro hp hx hc hnr
    rw [List.pairwise_cons] at hp
    obtain ⟨ha, ht⟩ := hp
    rcases List.mem_cons.mp hx with rfl | hxt
    · rcases List.mem_cons.mp hc with hcx | hct
      · exact absurd hcx.symm hne
      · exact List.Sublist.cons₂ x (List.singleton_sublist.mpr hct)
    · rcases List.mem_cons.mp hc with rfl | hct
      · exact absurd (ha x hxt) hnr
      · exact List.Sublist.cons a (ih ht hxt hct hnr)

/-- Every event the redraw phase emits is a draw call (successful or failed)
on an object of the queue snapshot it was given. -/
theorem drawPhase_log_mem (env : Env) (q : List Nat) (s : SysState) :
    ∀ e ∈ (drawPhase env s q).log,
      ∃ o ∈ q, e = Event.drew o ∨ e = Event.failedDraw o := by
  have main : ∀ (q : List Nat) (acc : PassResult), ∀ e ∈ (q.foldl (drawStep env) acc).log,
      e ∈ acc.log ∨ ∃ o ∈ q, e = Event.drew o ∨ e = Event.failedDraw o := by
    intro q
    induction q with
    | nil =>
      intro acc e he
      exact Or.inl he
    | cons a t ih =>
      intro acc e he
      rw [List.foldl_cons] at he
      rcases ih (drawStep env acc a) e he with hmem | ⟨o, ho, hor⟩
      · unfold drawStep at hmem
        split_ifs at hmem with h1 h2
        · exact Or.inl hmem
        · simp only [List.mem_append, List.mem_singleton] at hmem
          rcases hmem with hmem | rfl
          · exact Or.inl hmem
          · exact Or.inr ⟨a, List.mem_cons_self a t, Or.inr rfl⟩
        · simp only [List.mem_append, List.mem_singleton] at hmem
          rcases hmem with hmem | rfl
          · exact Or.inl hmem
          · exact Or.inr ⟨a, List.mem_cons_self a t, Or.inl rfl⟩
      · exact Or.inr ⟨o, List.mem_cons_of_mem a ho, hor⟩
  intro e he
  rcases main q { state := s, log := [], reports := [] } e he with h | h
  · cases h
  · exact h

/-- Claim C2: a drain pass processes, in order, the layout snapshot
children-before-parents (for a pending child `x` of a pending container `c`,
`x` is measured before `c`), then the redraw snapshot invoking `draw()`,
then the reposition snapshot parents-before-children; the log decomposes
into these three segments, each mentioning only objects of the corresponding
pending set at pass start — so invalidations enqueued while processing are
deferred to the next pass, never processed within the same one. -/
theorem drainPass_ordering (env : Env) (s : SysState) :
    (∃ llog dlog rlog,
      (drainPass env s).log = llog ++ dlog ++ rlog ∧
      (∀ e ∈ llog, ∃ o ∈ s.pendingLayout, e = Event.laidOut o) ∧
      (∀ e ∈ dlog, ∃ o ∈ s.pendingRedraw, e = Event.drew o ∨ e = Event.failedDraw o) ∧
      (∀ e ∈ rlog, ∃ o ∈ s.pendingReposition, e = Event.moved o)) ∧
    (∀ x c, env.parent x = some c → x ∈ s.pendingLayout → c ∈ s.pendingLayout →
      s.disposed x = false → s.disposed c = false →
      List.Sublist [Event.laidOut x, Event.laidOut c] (drainPass env s).log) ∧
    (∀ x c, env.parent x = some c → x ∈ s.pendingReposition → c ∈ s.pendingReposition →
      (drainPass env s).state.disposed x = false →
      (drainPass env s).state.disposed c = false →
      List.Sublist [Event.moved c, Event.moved x] (drainPass env s).log) := by
  refine ⟨?_, ?_, ?_⟩
  · refine ⟨layoutPhaseLog s, (drawPhase env (clearPending s) s.pendingRedraw).log,
      repositionPhaseLog (drawPhase env (clearPending s) s.pendingRedraw).state.disposed
        s.pendingReposition, rfl, ?_, ?_, ?_⟩
    · intro e he
      simp only [layoutPhaseLog, List.mem_map, List.mem_filter] at he
      obtain ⟨o, ⟨ho, _⟩, rfl⟩ := he
      exact ⟨o, mem_sortDesc.mp ho, rfl⟩
    · exact drawPhase_log_mem env s.pendingRedraw (clearPending s)
    · intro e he
      simp only [repositionPhaseLog, List.mem_map, List.mem_filter] at he
      obtain ⟨o, ⟨ho, _⟩, rfl⟩ := he
      exact ⟨o, mem_sortAsc.mp ho, rfl⟩
  · intro x c hpar hx hc hdx hdc
    have hlt : c < x := env.parent_lt x c hpar
    have hsub : List.Sublist [x, c] (sortDesc s.pendingLayout) :=
      pair_sublist_of_pairwise (by omega) (pairwise_sortDesc _)
        (mem_sortDesc.mpr hx) (mem_sortDesc.mpr hc) (by omega)
    have hsub2 : List.Sublist [x, c]
        ((sortDesc s.pendingLayout).filter (fun o => !s.disposed o)) := by
      have h := hsub.filter (fun o => !s.disposed o)
      simpa [List.filter_cons, hdx, hdc] using h
    have hsub3 : List.Sublist [Event.laidOut x, Event.laidOut c] (layoutPhaseLog s) := by
      have h := hsub2.map Event.laidOut
      simpa [layoutPhaseLog] using h
    show List.Sublist _ (drainPass env s).log
    exact hsub3.trans ((List.sublist_append_left _ _).trans (List.sublist_append_left _ _))
  · intro x c hpar hx hc hdx hdc
    have hlt : c < x := env.parent_lt x c hpar
    have hsub : List.Sublist [c, x] (sortAsc s.pendingReposition) :=
      pair_sublist_of_pairwise (by omega) (pairwise_sortAsc _)
        (mem_sortAsc.mpr hc) (mem_sortAsc.mpr hx) (by omega)
    have hsub2 : List.Sublist [c, x]
        ((sortAsc s.pendingReposition).filter
          (fun o => !(drawPhase env (clearPending s) s.pendingRedraw).state.disposed o)) := by
      have h := hsub.filter
        (fun o => !(drawPhase env (clearPending s) s.pendingRedraw).state.disposed o)
      simp only [List.filter_cons] at h
      have hdx' : (drawPhase env (clearPending s) s.pendingRedraw).state.disposed x = false := hdx
      have hdc' : (drawPhase env (clearPending s) s.pendingRedraw).state.disposed c = false := hdc
      simpa [hdx', hdc'] using h
    have hsub3 : List.Sublist [Event.moved c, Event.moved x]
        (repositionPhaseLog (drawPhase env (clearPending s) s.pendingRedraw).state.disposed
          s.pendingReposition) := by
      have h := hsub2.map Event.moved
      simpa [repositionPhaseLog] using h
    exact hsub3.trans (List.sublist_append_right _ _)

/-- Witness for C2 on `wEnv`/`wState`: the log decomposes into the three
phase segments; pending child `2` is laid out before its pending parent `0`;
parent `0` is repositioned before child `2`. -/
theorem drainPass_ordering_witness :
    (∃ llog dlog rlog,
      (drainPass wEnv wState).log = llog ++ dlog ++ rlog ∧
      (∀ e ∈ llog, ∃ o ∈ wState.pendingLayout, e = Event.laidOut o) ∧
      (∀ e ∈ dlog, ∃ o ∈ wState.pendingRedraw, e = Event.drew o ∨ e = Event.failedDraw o) ∧
      (∀ e ∈ rlog, ∃ o ∈ wState.pendingReposition, e = Event.moved o)) ∧
    List.Sublist [Event.laidOut 2, Event.laidOut 0] (drainPass wEnv wState).log ∧
    List.Sublist [Event.moved 0, Event.moved 2] (drainPass wEnv wState).log := by
  have h := drainPass_ordering wEnv wState
  refine ⟨h.1, ?_, ?_⟩
  · exact h.2.1 2 0 (by decide) (by decide) (by decide) (by decide) (by decide)
  · exact h.2.2 2 0 (by decide) (by decide) (by decide) (by decide) (by decide)

/-! ## Helper lemmas: disposal is permanent and skipped -/

/-- Marking pending layout never changes disposal flags. -/
theorem invalidateLayout_disposed (s : SysState) (o : Nat) :
    (invalidateLayout s o).disposed = s.disposed := by
  unfold invalidateLayout
  split_ifs <;> rfl

/-- Marking a chain of pending layouts never changes disposal flags. -/
theorem foldl_invalidateLayout_disposed (l : List Nat) (s : SysState) :
    (l.foldl invalidateLayout s).disposed = s.disposed := by
  induction l generalizing s with
  | nil => rfl
  | cons a t ih => rw [List.foldl_cons, ih, invalidateLayout_disposed]

/-- `invalidate` never changes disposal flags. -/
theorem invalidate_disposed (env : Env) (s : SysState) (o : Nat) :
    (invalidate env s o).disposed = s.disposed := by
  unfold invalidate
  split_ifs <;> first | rfl | rw [foldl_invalidateLayout_disposed]

/-- `invalidatePosition` never changes disposal flags. -/
theorem invalidatePosition_disposed (s : SysState) (o : Nat) :
    (invalidatePosition s o).disposed = s.disposed := by
  unfold invalidatePosition
  split_ifs <;> rfl

/-- No reentrant effect ever revives a disposed object. -/
theorem applyEffect_disposed_mono (env : Env) (s : SysState) (e : Effect) (j : Nat)
    (h : s.disposed j = true) : (applyEffect env s e).disposed j = true := by
  cases e with
  | invalidate k o =>
    cases k
    · rw [show applyEffect env s (Effect.invalidate Kind.redraw o) = invalidate env s o from rfl,
        invalidate_disposed]
      exact h
    · rw [show applyEffect env s (Effect.invalidate Kind.reposition o)
          = invalidatePosition s o from rfl, invalidatePosition_disposed]
      exact h
    · rw [show applyEffect env s (Effect.invalidate Kind.layout o)
          = invalidateLayout s o from rfl, invalidateLayout_disposed]
      exact h
  | dispose o =>
    show (if j = o then true else s.disposed j) = true
    split_ifs <;> simp [h]

/-- A disposed object stays disposed through any batch of reentrant effects. -/
theorem foldl_applyEffect_disposed_mono (env : Env) (effects : List Effect) (s : SysState)
    (j : Nat) (h : s.disposed j = true) :
    ((effects.foldl (applyEffect env) s).disposed j) = true := by
  induction effects generalizing s with
  | nil => exact h
  | cons e t ih => exact ih _ (applyEffect_disposed_mono env s e j h)

/-- One redraw step never touches an object disposed when it is dequeued:
disposal persists, no event about it is emitted, it is never reported. -/
theorem drawStep_disposed_invariant (env : Env) (acc : PassResult) (a j : Nat)
    (h : acc.state.disposed j = true) :
    (drawStep env acc a).state.disposed j = true ∧
    (∀ e ∈ (drawStep env acc a).log, e ∈ acc.log ∨ Event.obj e ≠ j) ∧
    (∀ o ∈ (drawStep env acc a).reports, o ∈ acc.reports ∨ o ≠ j) := by
  unfold drawStep
  split_ifs with h1 h2
  · exact ⟨h, fun e he => Or.inl he, fun o ho => Or.inl ho⟩
  · have hne : a ≠ j := fun hEq => h1 (hEq ▸ h)
    refine ⟨h, ?_, ?_⟩
    · intro e he
      simp only [List.mem_append, List.mem_singleton] at he
      rcases he with he | rfl
      · exact Or.inl he
      · exact Or.inr (by simpa [Event.obj] using hne)
    · intro o ho
      simp only [List.mem_append, List.mem_singleton] at ho
      rcases ho with ho | rfl
      · exact Or.inl ho
      · exact Or.inr hne
  · have hne : a ≠ j := fun hEq => h1 (hEq ▸ h)
    refine ⟨?_, ?_, ?_⟩
    · exact foldl_applyEffect_disposed_mono env _ _ j h
    · intro e he
      simp only [List.mem_append, List.mem_singleton] at he
      rcases he with he | rfl
      · exact Or.inl he
      · exact Or.inr (by simpa [Event.obj] using hne)
    · intro o ho
      exact Or.inl ho

/-- The whole redraw phase never touches an object disposed at its start. -/
theorem drawPhase_disposed_invariant (env : Env) (j : Nat) :
    ∀ (q : List Nat) (acc : PassResult), acc.state.disposed j = true →
      (q.foldl (drawStep env) acc).state.disposed j = true ∧
      (∀ e ∈ (q.foldl (drawStep env) acc).log, e ∈ acc.log ∨ Event.obj e ≠ j) ∧
      (∀ o ∈ (q.foldl (drawStep env) acc).reports, o ∈ acc.reports ∨ o ≠ j) := by
  intro q
  induction q with
  | nil => exact fun acc h => ⟨h, fun e he => Or.inl he, fun o ho => Or.inl ho⟩
  | cons a t ih =>
    intro acc h
    obtain ⟨hstep, hlog, hreps⟩ := drawStep_disposed_invariant env acc a j h
    obtain ⟨hfold, hflog, hfreps⟩ := ih (drawStep env acc a) hstep
    refine ⟨hfold, ?_, ?_⟩
    · intro e he
      rcases hflog e (by simpa using he) with hmem | hne
      · exact hlog e hmem
      · exact Or.inr hne
    · intro o ho
      rcases hfreps o (by simpa using ho) with hmem | hne
      · exact hreps o hmem
      · exact Or.inr hne

/-- Claim C8: disposing an object removes it from every pending set at once,
and a drain pass run on any state in which the object is disposed (even if
it was disposed mid-pass by an earlier drain, it stays disposed) never calls
`draw()`, `validate()` or reposition on it — every dequeued object found
disposed is skipped — nor reports it, and it remains disposed after the
pass. -/
theorem dispose_removes_and_skips (env : Env) (s : SysState) (obj : Nat) :
    (obj ∉ (dispose s obj).pendingRedraw ∧
     obj ∉ (dispose s obj).pendingReposition ∧
     obj ∉ (dispose s obj).pendingLayout ∧
     (dispose s obj).disposed obj = true) ∧
    (s.disposed obj = true →
      (∀ e ∈ (drainPass env s).log, Event.obj e ≠ obj) ∧
      obj ∉ (drainPass env s).reports ∧
      (drainPass env s).state.disposed obj = true) := by
  constructor
  · refine ⟨?_, ?_, ?_, ?_⟩ <;> simp [dispose, List.mem_filter]
  · intro h
    have hclear : (clearPending s).disposed obj = true := h
    obtain ⟨hdisp, hlog, hreps⟩ :=
      drawPhase_disposed_invariant env obj s.pendingRedraw
        { state := clearPending s, log := [], reports := [] } hclear
    refine ⟨?_, ?_, hdisp⟩
    · intro e he
      simp only [drainPass, List.mem_append] at he
      rcases he with (he | he) | he
      · simp only [layoutPhaseLog, List.mem_map, List.mem_filter] at he
        obtain ⟨o, ⟨_, hnd⟩, rfl⟩ := he
        intro hEq
        rw [show Event.obj (Event.laidOut o) = o from rfl] at hEq
        rw [hEq, h] at hnd
        simp at hnd
      · rcases hlog e he with hmem | hne
        · cases hmem
        · exact hne
      · simp only [repositionPhaseLog, List.mem_map, List.mem_filter] at he
        obtain ⟨o, ⟨_, hnd⟩, rfl⟩ := he
        intro hEq
        rw [show Event.obj (Event.moved o) = o from rfl] at hEq
        have hdisp' : (drawPhase env (clearPending s) s.pendingRedraw).state.disposed obj = true :=
          hdisp
        rw [hEq, hdisp'] at hnd
        simp at hnd
    · intro hmem
      simp only [drainPass] at hmem
      rcases hreps obj hmem with hmem' | hne
      · cases hmem'
      · exact hne rfl

/-! ## Helper lemmas: error isolation in the redraw phase -/

/-- With no reentrant effects, a redraw step never changes disposal flags. -/
theorem drawStep_disposed_of_noEffects (env : Env) (heff : ∀ o, env.onDraw o = [])
    (acc : PassResult) (a : Nat) :
    (drawStep env acc a).state.disposed = acc.state.disposed := by
  unfold drawStep
  split_ifs with h1 h2
  · rfl
  · rfl
  · rw [heff a]
    rfl

/-- With no reentrant effects, a validated object stays validated through a
redraw step. -/
theorem drawStep_valid_mono (env : Env) (heff : ∀ o, env.onDraw o = [])
    (acc : PassResult) (a j : Nat) (h : acc.state.valid j = true) :
    (drawStep env acc a).state.valid j = true := by
  unfold drawStep
  split_ifs with h1 h2
  · exact h
  · exact h
  · rw [heff a]
    show (if j = a then true else acc.state.valid j) = true
    split_ifs <;> simp [h]

/-- With no reentrant effects, an error state survives a redraw step. -/
theorem drawStep_errored_mono (env : Env) (heff : ∀ o, env.onDraw o = [])
    (acc : PassResult) (a j : Nat) (h : acc.state.errored j = true) :
    (drawStep env acc a).state.errored j = true := by
  unfold drawStep
  split_ifs with h1 h2
  · exact h
  · show (if j = a then true else acc.state.errored j) = true
    split_ifs <;> simp [h]
  · rw [heff a]
    exact h

/-- With no reentrant effects, a validated object stays validated through the
rest of the redraw phase. -/
theorem drawPhase_valid_mono (env : Env) (heff : ∀ o, env.onDraw o = []) (j : Nat) :
    ∀ (q : List Nat) (acc : PassResult), acc.state.valid j = true →
      (q.foldl (drawStep env) acc).state.valid j = true := by
  intro q
  induction q with
  | nil => exact fun acc h => h
  | cons a t ih => exact fun acc h => ih _ (drawStep_valid_mono env heff acc a j h)

/-- With no reentrant effects, an error state survives the rest of the
redraw phase. -/
theorem drawPhase_errored_mono (env : Env) (heff : ∀ o, env.onDraw o = []) (j : Nat) :
    ∀ (q : List Nat) (acc : PassResult), acc.state.errored j = true →
      (q.foldl (drawStep env) acc).state.errored j = true := by
  intro q
  induction q with
  | nil => exact fun acc h => h
  | cons a t ih => exact fun acc h => ih _ (drawStep_errored_mono env heff acc a j h)

/-- With no reentrant effects, a non-disposed object whose `draw()` succeeds
ends the redraw phase validated. -/
theorem drawPhase_validates (env : Env) (heff : ∀ o, env.onDraw o = []) (j : Nat)
    (hfail : env.drawFails j = false) :
    ∀ (q : List Nat) (acc : PassResult), j ∈ q → acc.state.disposed j = false →
      (q.foldl (drawStep env) acc).state.valid j = true := by
  intro q
  induction q with
  | nil =>
    intro acc hj
    cases hj
  | cons a t ih =>
    intro acc hj hd
    by_cases haj : a = j
    · subst haj
      rw [List.foldl_cons]
      apply drawPhase_valid_mono env heff a t
      unfold drawStep
      rw [if_neg (by simp [hd]), if_neg (by simp [hfail]), heff a]
      show (if a = a then true else acc.state.valid a) = true
      simp
    · rcases List.mem_cons.mp hj with rfl | hjt
      · exact absurd rfl haj
      · rw [List.foldl_cons]
        apply ih
        · exact hjt
        · rw [drawStep_disposed_of_noEffects env heff acc a]
          exact hd

/-- With no reentrant effects, a non-disposed object whose `draw()` throws
ends the redraw phase in the error state. -/
theorem drawPhase_errors (env : Env) (heff : ∀ o, env.onDraw o = []) (j : Nat)
    (hfail : env.drawFails j = true) :
    ∀ (q : List Nat) (acc : PassResult), j ∈ q → acc.state.disposed j = false →
      (q.foldl (drawStep env) acc).state.errored j = true := by
  intro q
  induction q with
  | nil =>
    intro acc hj
    cases hj
  | cons a t ih =>
    intro acc hj hd
    by_cases haj : a = j
    · subst haj
      rw [List.foldl_cons]
      apply drawPhase_errored_mono env heff a t
      unfold drawStep
      rw [if_neg (by simp [hd]), if_pos hfail]
      show (if a = a then true else acc.state.errored a) = true
      simp
    · rcases List.mem_cons.mp hj with rfl | hjt
      · exact absurd rfl haj
      · rw [List.foldl_cons]
        apply ih
        · exact hjt
        · rw [drawStep_disposed_of_noEffects env heff acc a]
          exact hd

/-- With no reentrant effects, the valid flag of an object whose `draw()`
throws is never touched by the redraw phase. -/
theorem drawPhase_failed_valid (env : Env) (heff : ∀ o, env.onDraw o = []) (j : Nat)
    (hfail : env.drawFails j = true) :
    ∀ (q : List Nat) (acc : PassResult),
      (q.foldl (drawStep env) acc).state.valid j = acc.state.valid j := by
  intro q
  induction q with
  | nil => exact fun acc => rfl
  | cons a t ih =>
    intro acc
    rw [List.foldl_cons, ih]
    unfold drawStep
    split_ifs with h1 h2
    · rfl
    · rfl
    · rw [heff a]
      show (if j = a then true else acc.state.valid j) = acc.state.valid j
      split_ifs with hja
      · subst hja
        rw [hfail] at h2
        exact absurd rfl h2
      · rfl

/-- Objects whose `draw()` succeeds (or that are skipped) report nothing. -/
theorem drawPhase_reports_nofail (env : Env) :
    ∀ (q : List Nat), (∀ o ∈ q, env.drawFails o = false) →
      ∀ acc : PassResult, (q.foldl (drawStep env) acc).reports = acc.reports := by
  intro q
  induction q with
  | nil => exact fun _ _ => rfl
  | cons a t ih =>
    intro hq acc
    rw [List.foldl_cons, ih (fun o ho => hq o (List.mem_cons_of_mem a ho))]
    unfold drawStep
    split_ifs with h1 h2
    · rfl
    · rw [hq a (List.mem_cons_self a t)] at h2
      simp at h2
    · rfl

/-- With no reentrant effects, a pass whose snapshot contains exactly one
failing (and not disposed) object reports exactly that object. -/
theorem drawPhase_reports_single (env : Env) (heff : ∀ o, env.onDraw o = []) (f : Nat)
    (hfail : env.drawFails f = true) :
    ∀ (q : List Nat) (acc : PassResult), q.Nodup → f ∈ q →
      acc.state.disposed f = false →
      (∀ o ∈ q, o ≠ f → env.drawFails o = false) →
      (q.foldl (drawStep env) acc).reports = acc.reports ++ [f] := by
  intro q
  induction q with
  | nil =>
    intro acc _ hf
    cases hf
  | cons a t ih =>
    intro acc hnd hf hd hothers
    rw [List.nodup_cons] at hnd
    by_cases haf : a = f
    · subst haf
      rw [List.foldl_cons]
      rw [drawPhase_reports_nofail env t
        (fun o ho => hothers o (List.mem_cons_of_mem a ho)
          (fun hof => hnd.1 (hof ▸ ho)))]
      unfold drawStep
      rw [if_neg (by simp [hd]), if_pos hfail]
    · rcases List.mem_cons.mp hf with rfl | hft
      · exact absurd rfl haf
      · rw [List.foldl_cons]
        have hstep : (drawStep env acc a).reports = acc.reports := by
          unfold drawStep
          split_ifs with h1 h2
          · rfl
          · rw [hothers a (List.mem_cons_self a t) haf] at h2
            simp at h2
          · rfl
        rw [ih (drawStep env acc a) hnd.2 hft
          (by rw [drawStep_disposed_of_noEffects env heff acc a]; exact hd)
          (fun o ho hof => hothers o (List.mem_cons_of_mem a ho) hof), hstep]

/-- Claim C6: in a pass with no reentrant effects, an exception thrown from
one object's `draw()` does not abort the pass: every other pending
(non-disposed, non-failing) object is still validated, the offending object
is marked in the error state and remains the only one still flagged
invalid, and the error is reported in the pass result instead of being
propagated (`drainPass` is total and returns normally). -/
theorem drainPass_error_isolation (env : Env) (s : SysState) (f : Nat)
    (heff : ∀ o, env.onDraw o = [])
    (hq : s.pendingRedraw.Nodup)
    (hf : f ∈ s.pendingRedraw)
    (hfail : env.drawFails f = true)
    (hothers : ∀ o ∈ s.pendingRedraw, o ≠ f → env.drawFails o = false)
    (hnodisp : ∀ o ∈ s.pendingRedraw, s.disposed o = false)
    (hvalidf : s.valid f = false) :
    (∀ o ∈ s.pendingRedraw, o ≠ f → (drainPass env s).state.valid o = true) ∧
    (drainPass env s).state.valid f = false ∧
    (drainPass env s).state.errored f = true ∧
    (∀ o ∈ s.pendingRedraw, ((drainPass env s).state.valid o = false ↔ o = f)) ∧
    (drainPass env s).reports = [f] := by
  have hothersv : ∀ o ∈ s.pendingRedraw, o ≠ f →
      (drainPass env s).state.valid o = true := by
    intro o ho hne
    show (List.foldl (drawStep env)
      { state := clearPending s, log := [], reports := [] } s.pendingRedraw).state.valid o = true
    exact drawPhase_validates env heff o (hothers o ho hne) s.pendingRedraw _ ho (hnodisp o ho)
  have hvalf : (drainPass env s).state.valid f = false := by
    show (List.foldl (drawStep env)
      { state := clearPending s, log := [], reports := [] } s.pendingRedraw).state.valid f = false
    rw [drawPhase_failed_valid env heff f hfail s.pendingRedraw _]
    exact hvalidf
  refine ⟨hothersv, hvalf, ?_, ?_, ?_⟩
  · show (List.foldl (drawStep env)
      { state := clearPending s, log := [], reports := [] } s.pendingRedraw).state.errored f = true
    exact drawPhase_errors env heff f hfail s.pendingRedraw _ hf (hnodisp f hf)
  · intro o ho
    constructor
    · intro hvo
      by_contra hne
      rw [hothersv o ho hne] at hvo
      simp at hvo
    · intro hof
      subst hof
      exact hvalf
  · show (List.foldl (drawStep env)
      { state := clearPending s, log := [], reports := [] } s.pendingRedraw).reports = [f]
    rw [drawPhase_reports_single env heff f hfail s.pendingRedraw _ hq hf (hnodisp f hf) hothers]
    rfl

/-- Witness for C6 on `wEnv`/`wState`: in the pass over the three pending
objects `[2, 0, 1]`, object `1`'s `draw()` throws; `2` and `0` are still
validated, only `1` remains flagged, it is marked errored, and the pass
returns reporting exactly `[1]`. -/
theorem drainPass_error_isolation_witness :
    (∀ o ∈ wState.pendingRedraw, o ≠ 1 → (drainPass wEnv wState).state.valid o = true) ∧
    (drainPass wEnv wState).state.valid 1 = false ∧
    (drainPass wEnv wState).state.errored 1 = true ∧
    (∀ o ∈ wState.pendingRedraw, ((drainPass wEnv wState).state.valid o = false ↔ o = 1)) ∧
    (drainPass wEnv wState).reports = [1] :=
  drainPass_error_isolation wEnv wState 1 (fun _ => rfl) (by decide) (by decide) (by decide)
    (by decide) (by decide) (by decide)

/-- Witness for C8: disposing object `2` removes it from every pending set;
a pass over `wStateDisposed` (where `2` is disposed yet still queued) never
emits a call on `2`, never reports it, and leaves it disposed. -/
theorem dispose_removes_and_skips_witness :
    (2 ∉ (dispose wStateDisposed 2).pendingRedraw ∧
     2 ∉ (dispose wStateDisposed 2).pendingReposition ∧
     2 ∉ (dispose wStateDisposed 2).pendingLayout ∧
     (dispose wStateDisposed 2).disposed 2 = true) ∧
    ((∀ e ∈ (drainPass wEnv wStateDisposed).log, Event.obj e ≠ 2) ∧
     2 ∉ (drainPass wEnv wStateDisposed).reports ∧
     (drainPass wEnv wStateDisposed).state.disposed 2 = true) := by
  have h := dispose_removes_and_skips wEnv wStateDisposed 2
  exact ⟨h.1, h.2 (by decide)⟩

/-! ## Helper lemmas: the property store -/

/-- Marking pending layout never touches stored properties. -/
theorem invalidateLayout_props (s : SysState) (o : Nat) :
    (invalidateLayout s o).props = s.props := by
  unfold invalidateLayout
  split_ifs <;> rfl

/-- Marking a chain of pending layouts never touches stored properties. -/
theorem foldl_invalidateLayout_props (l : List Nat) (s : SysState) :
    (l.foldl invalidateLayout s).props = s.props := by
  induction l generalizing s with
  | nil => rfl
  | cons a t ih => rw [List.foldl_cons, ih, invalidateLayout_props]

/-- `invalidate` never touches stored properties. -/
theorem invalidate_props (env : Env) (s : SysState) (o : Nat) :
    (invalidate env s o).props = s.props := by
  unfold invalidate
  split_ifs <;> first | rfl | rw [foldl_invalidateLayout_props]

/-- `invalidate` on a live, not-errored, not-yet-pending object enqueues it
exactly once at the back of the redraw queue. -/
theorem invalidate_pendingRedraw (env : Env) (s : SysState) (o : Nat)
    (hd : s.disposed o = false) (he : s.errored o = false) (hp : o ∉ s.pendingRedraw) :
    (invalidate env s o).pendingRedraw = s.pendingRedraw ++ [o] := by
  unfold invalidate
  rw [if_neg (by simp [hd]), if_neg (by simp [he]), if_neg hp]
  split_ifs with haff
  · rw [foldl_invalidateLayout_pendingRedraw]
  · rfl

/-- Replacing a binding makes it the stored value. -/
theorem lookup_storeProp (l : List (String × PropValue)) (P : String) (V : PropValue) :
    (storeProp l P V).lookup P = some V := by
  unfold storeProp
  simp [List.lookup]

/-- `set` is a complete no-op when the value is already the stored one. -/
theorem setPropertyValue_noop_of_stored (env : Env) (s : SysState) (obj : Nat)
    (P : String) (V : PropValue) (inv : Bool)
    (h : (s.props obj).lookup P = some V) :
    setPropertyValue env s obj P V inv = (s, false, []) := by
  unfold setPropertyValue
  by_cases hd : s.disposed obj = true
  · rw [if_pos hd]
  · rw [if_neg hd, h]
    simp

/-- A `set` whose value differs from the current effective value stores the
value, reports `changed = true`, fires exactly one "propertychanged" event
carrying the old value, and (when asked) invalidates. -/
theorem setPropertyValue_changed_state (env : Env) (s : SysState) (obj : Nat)
    (P : String) (V : PropValue) (inv : Bool)
    (hd : s.disposed obj = false) (hV : V ≠ effectiveValue env s obj P) :
    setPropertyValue env s obj P V inv
      = ((if inv then
            invalidate env
              { s with props := fun o => if o = obj then storeProp (s.props o) P V else s.props o }
              obj
          else
            { s with props := fun o => if o = obj then storeProp (s.props o) P V else s.props o }),
         true,
         [{ obj := obj, property := P, oldValue := effectiveValue env s obj P,
            newValue := V }]) := by
  have hd' : ¬ s.disposed obj = true := by simp [hd]
  unfold setPropertyValue
  rw [if_neg hd']
  cases hcur : (s.props obj).lookup P with
  | some cur =>
    have hVc : V ≠ cur := by
      intro hEq
      exact hV (by unfold effectiveValue; rw [hcur]; exact hEq)
    simp [hcur, hVc, effectiveValue]
  | none =>
    have hVc : V ≠ env.defaults P := by
      intro hEq
      exact hV (by unfold effectiveValue; rw [hcur]; exact hEq)
    simp [hcur, hVc, effectiveValue]

/-- Claim C3 (amended): setting a property to its current effective value
(stored value, or default when unset) is a complete no-op — `changed =
false`, no event, no invalidation, state returned unchanged; any two
consecutive identical sets fire at most one "propertychanged" event; and
when the value differs from the current effective value and the live,
not-errored object is not already pending redraw, two consecutive sets fire
exactly one event and append exactly one entry to the redraw queue. -/
theorem setPropertyValue_noop_and_once (env : Env) (s : SysState) (obj : Nat)
    (P : String) (V : PropValue) (inv : Bool) :
    (V = effectiveValue env s obj P →
      setPropertyValue env s obj P V inv = (s, false, [])) ∧
    (((setPropertyValue env s obj P V inv).2.2
       ++ (setPropertyValue env (setPropertyValue env s obj P V inv).1 obj P V inv).2.2).length
      ≤ 1) ∧
    (V ≠ effectiveValue env s obj P → s.disposed obj = false → s.errored obj = false →
      obj ∉ s.pendingRedraw →
      ((setPropertyValue env s obj P V true).2.2.length = 1 ∧
       setPropertyValue env (setPropertyValue env s obj P V true).1 obj P V true
         = ((setPropertyValue env s obj P V true).1, false, []) ∧
       ((setPropertyValue env s obj P V true).1).pendingRedraw
         = s.pendingRedraw ++ [obj])) := by
  have hnoop : V = effectiveValue env s obj P →
      setPropertyValue env s obj P V inv = (s, false, []) := by
    intro hV
    by_cases hd : s.disposed obj = true
    · unfold setPropertyValue
      rw [if_pos hd]
    · unfold effectiveValue at hV
      unfold setPropertyValue
      rw [if_neg hd]
      cases hcur : (s.props obj).lookup P with
      | some cur =>
        rw [hcur] at hV
        simp only [] at hV
        simp [hcur, hV]
      | none =>
        rw [hcur] at hV
        simp only [] at hV
        simp [hcur, hV]
  refine ⟨hnoop, ?_, ?_⟩
  · by_cases hV : V = effectiveValue env s obj P
    · rw [hnoop hV]
      rw [hnoop hV]
      simp
    · by_cases hd : s.disposed obj = true
      · unfold setPropertyValue
        rw [if_pos hd, if_pos hd]
        simp
      · have hd0 : s.disposed obj = false := by simpa using hd
        have hch := setPropertyValue_changed_state env s obj P V inv hd0 hV
        rw [hch]
        have hlook : (((if inv then
              invalidate env
                { s with props := fun o => if o = obj then storeProp (s.props o) P V else s.props o }
                obj
            else
              { s with props := fun o => if o = obj then storeProp (s.props o) P V
                  else s.props o }) : SysState).props obj).lookup P = some V := by
          cases inv with
          | false => simp [lookup_storeProp]
          | true => simp [invalidate_props, lookup_storeProp]
        rw [setPropertyValue_noop_of_stored env _ obj P V inv hlook]
        simp
  · intro hV hd herr hpend
    have hch := setPropertyValue_changed_state env s obj P V true hd hV
    rw [hch]
    have hlook : ((invalidate env
          { s with props := fun o => if o = obj then storeProp (s.props o) P V else s.props o }
          obj).props obj).lookup P = some V := by
      simp [invalidate_props, lookup_storeProp]
    refine ⟨by simp, ?_, ?_⟩
    · show setPropertyValue env (invalidate env _ obj) obj P V true = _
      rw [setPropertyValue_noop_of_stored env _ obj P V true hlook]
      simp
    · show (invalidate env
          { s with props := fun o => if o = obj then storeProp (s.props o) P V else s.props o }
          obj).pendingRedraw = s.pendingRedraw ++ [obj]
      exact invalidate_pendingRedraw env _ obj hd herr hpend

/-- Counterexample to C3 as stated: setting `startAngle` twice to `0` — the
class default, with nothing stored — on a fresh live object fires zero
"propertychanged" events and enqueues zero invalidations, not exactly one:
the universally quantified "twice fires exactly one event and enqueues
exactly one invalidation" fails when the value already equals the current
effective value. -/
theorem setPropertyValue_twice_counterexample :
    ¬ (((setStartAngle wEnv wStateFresh 0 0).2.2
         ++ (setStartAngle wEnv (setStartAngle wEnv wStateFresh 0 0).1 0 0).2.2).length = 1 ∧
       ((setStartAngle wEnv (setStartAngle wEnv wStateFresh 0 0).1 0 0).1.pendingRedraw.count 0)
         = 1) := by
  decide

/-- Witness for C3 (amended) on `wEnv`/`wStateFresh`, object `0`, property
`startAngle`: setting the default value `0` is a no-op; two identical sets
of `5` fire at most one event, and in fact exactly one, with exactly one
enqueue and a second call that is a complete no-op. -/
theorem setPropertyValue_noop_and_once_witness :
    (setPropertyValue wEnv wStateFresh 0 "startAngle" (PropValue.num 0) true
      = (wStateFresh, false, [])) ∧
    (((setPropertyValue wEnv wStateFresh 0 "startAngle" (PropValue.num 5) true).2.2
       ++ (setPropertyValue wEnv
            (setPropertyValue wEnv wStateFresh 0 "startAngle" (PropValue.num 5) true).1
            0 "startAngle" (PropValue.num 5) true).2.2).length ≤ 1) ∧
    ((setPropertyValue wEnv wStateFresh 0 "startAngle" (PropValue.num 5) true).2.2.length = 1 ∧
     setPropertyValue wEnv
        (setPropertyValue wEnv wStateFresh 0 "startAngle" (PropValue.num 5) true).1
        0 "startAngle" (PropValue.num 5) true
       = ((setPropertyValue wEnv wStateFresh 0 "startAngle" (PropValue.num 5) true).1,
          false, []) ∧
     ((setPropertyValue wEnv wStateFresh 0 "startAngle" (PropValue.num 5) true).1).pendingRedraw
       = wStateFresh.pendingRedraw ++ [0]) := by
  refine ⟨?_, ?_, ?_⟩
  · exact (setPropertyValue_noop_and_once wEnv wStateFresh 0 "startAngle"
      (PropValue.num 0) true).1 (by decide)
  · exact (setPropertyValue_noop_and_once wEnv wStateFresh 0 "startAngle"
      (PropValue.num 5) true).2.1
  · exact (setPropertyValue_noop_and_once wEnv wStateFresh 0 "startAngle"
      (PropValue.num 5) true).2.2 (by decide) (by decide) (by decide) (by decide)
